import Mathlib

/-!
# Verification of the 7z-to-chd multi-disc playlist manager

A shallow embedding of `lib/playlist.py` (class `PlaylistManager`) and proofs
about it.  Python strings are Lean `String`s, `pathlib.Path` values are
`FsPath` records (directory parts plus file name), the filesystem is an
association list from paths to line lists (files are modelled as lists of
newline-terminated lines), and each method becomes a pure function that
threads the manager state (`PMState`) and the filesystem (`Fs`) explicitly.
`datetime.now()` is passed in as an explicit `now : String` argument, and
filesystem failures inside a `try` block are injected through a `fsOk : Bool`
argument (`fsOk = false` means the first filesystem operation of the guarded
block raises, and the `except` branch runs).

The four ad-hoc regular expressions of `_find_related_discs` (which search the
output directory for additional discs of a known title) are abstracted as a
parameter `relMatch : String → String → Option Nat` (base name, file name ↦
matched disc number); every theorem that touches them holds for an arbitrary
matcher.  The ten disc-marker regexes of `_extract_base_name_and_disc` are
embedded exactly, with Python `re.search` / `re.sub` semantics hand-rolled for
their (backtracking-free) shapes.
-/

namespace SevenZ

/-! ## Characters and low-level string helpers -/

/-- Python `\s` for ASCII input: space, tab, newline, carriage return,
vertical tab, form feed. -/
def isPySpace (c : Char) : Bool :=
  c == ' ' || c == '\t' || c == '\n' || c == '\r' || c == '\x0b' || c == '\x0c'

/-- The separator class `[\s\-\_\.]` used by the disc patterns. -/
def isSepChar (c : Char) : Bool :=
  isPySpace c || c == '-' || c == '_' || c == '.'

def isDigitChar (c : Char) : Bool := '0' ≤ c && c ≤ '9'

/-- The characters stripped by `.strip(" -_.")` (literal space only). -/
def isTrimChar (c : Char) : Bool :=
  c == ' ' || c == '-' || c == '_' || c == '.'

/-- Strip characters satisfying `p` from both ends (Python `str.strip`). -/
def stripEnds (p : Char → Bool) (cs : List Char) : List Char :=
  ((cs.dropWhile p).reverse.dropWhile p).reverse

/-- `needle` occurs at the start of `hay`. -/
def startsWithChars : List Char → List Char → Bool
  | [], _ => true
  | _ :: _, [] => false
  | a :: as, b :: bs => a == b && startsWithChars as bs

/-- `needle` occurs somewhere in `hay` (Python `needle in hay`). -/
def hasInfixChars (needle : List Char) : List Char → Bool
  | [] => startsWithChars needle []
  | c :: cs => startsWithChars needle (c :: cs) || hasInfixChars needle cs

def lineContains (needle l : String) : Bool := hasInfixChars needle.toList l.toList

def lowerStr (s : String) : String := String.mk (s.toList.map Char.toLower)

/-- Join with a separator (kernel-reducible `String.intercalate`). -/
def joinSep (sep : String) : List String → String
  | [] => ""
  | [x] => x
  | x :: y :: xs => x ++ sep ++ joinSep sep (y :: xs)

def strEndsWith (s suffStr : String) : Bool :=
  startsWithChars suffStr.toList.reverse s.toList.reverse

def strStartsWith (s preStr : String) : Bool :=
  startsWithChars preStr.toList s.toList

def strIsEmpty (s : String) : Bool := s.toList.isEmpty

/-- Last `/`-separated component of a string path (`PurePath.name`). -/
def lastComponentChars (cs : List Char) : List Char :=
  (cs.reverse.takeWhile (fun c => c != '/')).reverse

/-- `PurePath(s).stem`: the final component with its last dot-suffix removed,
where a suffix must not start at position 0 and must be nonempty. -/
def pathStemChars (cs : List Char) : List Char :=
  let n := lastComponentChars cs
  let afterDot := n.reverse.takeWhile (fun c => c != '.')
  if afterDot.length == n.length then n
  else
    let i := n.length - 1 - afterDot.length
    if 0 < i ∧ 0 < afterDot.length then n.take i else n

def pathStem (s : String) : String := String.mk (pathStemChars s.toList)

def entryBasename (s : String) : String := String.mk (lastComponentChars s.toList)

/-! ## The disc-marker patterns of `_extract_base_name_and_disc`

Each Python pattern is one of three shapes, and in each shape the character
classes of adjacent greedy pieces are disjoint, so maximal-munch matching
agrees with the backtracking regex engine.  A matcher attempt at a position
returns the captured digit group together with the remaining input after the
match (from which the consumed span can be recovered for `re.sub`). -/

def matchWordCI : List Char → List Char → Option (List Char)
  | [], cs => some cs
  | _ :: _, [] => none
  | w :: ws, c :: cs => if c.toLower == w then matchWordCI ws cs else none

/-- Shape `[\[(]? word \s* (\d+) [\])]?` (with `\s*` only when `spaces`). -/
def matchBracketWordAt (word : List Char) (spaces : Bool) (cs : List Char) :
    Option (List Char × List Char) :=
  let cs0 := match cs with
    | c :: rest => if c == '[' || c == '(' then rest else cs
    | [] => []
  match matchWordCI word cs0 with
  | none => none
  | some cs1 =>
    let cs2 := if spaces then cs1.dropWhile isPySpace else cs1
    let digits := cs2.takeWhile isDigitChar
    if digits.isEmpty then none
    else
      let rest := cs2.dropWhile isDigitChar
      let rest2 := match rest with
        | c :: rest1 => if c == ')' || c == ']' then rest1 else rest
        | [] => []
      some (digits, rest2)

/-- Shape `[\s\-\_\.]+ word (\d+) [\s\-\_\.]?`; `word = []` gives the bare
trailing-number pattern `[\s\-\_\.]+(\d+)[\s\-\_\.]?`. -/
def matchSepWordAt (word : List Char) (cs : List Char) :
    Option (List Char × List Char) :=
  let seps := cs.takeWhile isSepChar
  if seps.isEmpty then none
  else
    let cs0 := cs.dropWhile isSepChar
    match matchWordCI word cs0 with
    | none => none
    | some cs1 =>
      let digits := cs1.takeWhile isDigitChar
      if digits.isEmpty then none
      else
        let rest := cs1.dropWhile isDigitChar
        let rest2 := match rest with
          | c :: rest1 => if isSepChar c then rest1 else rest
          | [] => []
        some (digits, rest2)

abbrev Matcher := List Char → Option (List Char × List Char)

/-- `re.search`: try the matcher at each position, leftmost success wins;
returns the captured digit group. -/
def searchPat (m : Matcher) : List Char → Option (List Char)
  | [] => none
  | c :: cs => match m (c :: cs) with
    | some (digits, _) => some digits
    | none => searchPat m cs

/-- `re.sub(pattern, "", ·)`: remove every non-overlapping match, scanning
left to right.  Fuelled recursion; every matcher of interest consumes at
least one character per match, so `cs.length` fuel suffices. -/
def subPatAux (m : Matcher) : Nat → List Char → List Char
  | 0, cs => cs
  | _ + 1, [] => []
  | fuel + 1, c :: cs => match m (c :: cs) with
    | some (_, rest) => subPatAux m fuel rest
    | none => c :: subPatAux m fuel cs

def subPat (m : Matcher) (cs : List Char) : List Char := subPatAux m cs.length cs

def digitsToNat (ds : List Char) : Nat :=
  ds.foldl (fun a c => a * 10 + (c.toNat - '0'.toNat)) 0

/-- `self.disc_patterns`, in priority order. -/
def discMatchers : List Matcher := [
  matchBracketWordAt ['d', 'i', 's', 'c'] true,
  matchBracketWordAt ['c', 'd'] true,
  matchBracketWordAt ['d', 'i', 's', 'k'] true,
  matchBracketWordAt ['v', 'o', 'l', 'u', 'm', 'e'] true,
  matchBracketWordAt ['v', 'o', 'l'] true,
  matchBracketWordAt ['d'] false,
  matchSepWordAt ['d'],
  matchSepWordAt ['d', 'i', 's', 'c'],
  matchSepWordAt ['c', 'd'],
  matchSepWordAt []]

/-- One iteration of the pattern loop: on a search hit, the disc number is
the captured group and the base name is the input with all matches removed,
trimmed with `.strip(" -_.")`. -/
def tryPat (m : Matcher) (name : List Char) : Option (Nat × List Char) :=
  match searchPat m name with
  | some digits => some (digitsToNat digits, stripEnds isTrimChar (subPat m name))
  | none => none

def extractLoop : List Matcher → List Char → Option (Nat × List Char)
  | [], _ => none
  | m :: ms, name => match tryPat m name with
    | some r => some r
    | none => extractLoop ms name

/-- `PlaylistManager._extract_base_name_and_disc`.  Note that the function
re-stems its argument (`name = Path(filename).stem`). -/
def extractBaseNameAndDisc (filename : String) : String × Option Nat :=
  let name := pathStem filename
  match extractLoop discMatchers name.toList with
  | some (n, base) => (String.mk base, some n)
  | none => (name, none)

/-! ## Paths, filesystem, manager state -/

/-- A `pathlib.Path`: directory parts plus final component. -/
structure FsPath where
  dir : List String
  fname : String
deriving DecidableEq, Repr

def pathToString (p : FsPath) : String :=
  joinSep "/" (p.dir ++ [p.fname])

/-- Split a character list on `/` (Python `str.split("/")` semantics). -/
def splitSlashChars (cs : List Char) : List (List Char) :=
  cs.foldr (fun c acc =>
    if c == '/' then [] :: acc
    else match acc with
      | [] => [[c]]
      | a :: rest => (c :: a) :: rest) [[]]

/-- `Path(string)`: split on `/`; the last part is the name. -/
def strToPath (s : String) : FsPath :=
  let parts := (splitSlashChars s.toList).map String.mk
  ⟨parts.dropLast, (parts.getLast?).getD ""⟩

abbrev FileLines := List String

/-- The filesystem: text files as lists of newline-terminated lines.
Converted `.chd` outputs are entries whose content is irrelevant. -/
structure Fs where
  files : List (FsPath × FileLines)
deriving DecidableEq, Repr

def assocGet {κ α : Type} [DecidableEq κ] : List (κ × α) → κ → Option α
  | [], _ => none
  | (k, v) :: xs, q => if q = k then some v else assocGet xs q

/-- Dict update: replace in place, else append (Python dict insertion order). -/
def assocSet {κ α : Type} [DecidableEq κ] : List (κ × α) → κ → α → List (κ × α)
  | [], q, v => [(q, v)]
  | (k, w) :: xs, q, v => if q = k then (q, v) :: xs else (k, w) :: assocSet xs q v

/-- Python `set.add` on a set modelled as a duplicate-free list. -/
def setInsert (xs : List String) (x : String) : List String :=
  if x ∈ xs then xs else xs ++ [x]

/-- The mutable attributes of `PlaylistManager`.  The output directory is
taken as always configured (as in the application, which constructs the
manager with `output_dir=dest_dir`); the state-file path is derived from it. -/
structure PMState where
  outputDir : List String
  gameSeries : List (String × List (FsPath × Nat))
  createdPlaylists : List String
  userCustomized : List String
  seriesSignatures : List (String × String)
  recentlyUpdated : List String
deriving DecidableEq, Repr

def emptyPM (outDir : List String) : PMState :=
  ⟨outDir, [], [], [], [], []⟩

/-- `self.game_series[g]` under `defaultdict(list)` semantics. -/
def seriesOf (st : PMState) (g : String) : List (FsPath × Nat) :=
  (assocGet st.gameSeries g).getD []

def markerLine : String := "# Created by 7z-to-CHD Converter"

/-- `PlaylistManager._clean_filename`. -/
def cleanFilename (s : String) : String :=
  String.mk (s.toList.map fun c =>
    if c == '<' || c == '>' || c == ':' || c == '"' || c == '/' ||
       c == '\\' || c == '|' || c == '?' || c == '*' then '_' else c)

/-! ## Sorting helpers (Python `list.sort` / `sorted` are stable) -/

/-- Stable insertion for sorting disc lists by disc number. -/
def insertByNum (x : FsPath × Nat) : List (FsPath × Nat) → List (FsPath × Nat)
  | [] => [x]
  | y :: ys => if x.2 ≤ y.2 then x :: y :: ys else y :: insertByNum x ys

def sortByNum : List (FsPath × Nat) → List (FsPath × Nat)
  | [] => []
  | x :: xs => insertByNum x (sortByNum xs)

/-- Python string `<` (codepoint lexicographic). -/
def charsLt : List Char → List Char → Bool
  | [], [] => false
  | [], _ :: _ => true
  | _ :: _, [] => false
  | a :: as, b :: bs => if a < b then true else if b < a then false else charsLt as bs

/-- Lexicographic `≤` on (disc number, file name) pairs, as Python compares
the tuples built in `_update_series_signature`. -/
def pairLe (a b : Nat × String) : Bool :=
  a.1 < b.1 || (a.1 == b.1 && !charsLt b.2.toList a.2.toList)

def insertPair (x : Nat × String) : List (Nat × String) → List (Nat × String)
  | [] => [x]
  | y :: ys => if pairLe x y then x :: y :: ys else y :: insertPair x ys

def sortPairs : List (Nat × String) → List (Nat × String)
  | [] => []
  | x :: xs => insertPair x (sortPairs xs)

def sortNats (ns : List Nat) : List Nat :=
  (sortPairs (ns.map fun n => (n, ""))).map (·.1)

def maxNat (ns : List Nat) : Nat := ns.foldr max 0

/-- Python `min` of a nonempty list (`min([])` would raise; the callers
below only reach it on nonempty input). -/
def minNat (ns : List Nat) : Nat :=
  match ns with
  | [] => 0
  | x :: xs => xs.foldl min x

/-! ## Signatures -/

/-- The signature string of `_update_series_signature`: sorted
`(disc number, file name)` pairs joined as `num:name` with `:`. -/
def sigOfDiscs (discs : List (FsPath × Nat)) : String :=
  let info := sortPairs (discs.map fun e => (e.2, e.1.fname))
  joinSep ":" (info.map fun e => toString e.1 ++ ":" ++ e.2)

/-- `PlaylistManager._update_series_signature`: recompute, store, return. -/
def updateSeriesSignature (st : PMState) (g : String) : String × PMState :=
  match assocGet st.gameSeries g with
  | none => ("", st)
  | some discs =>
    let s := sigOfDiscs discs
    (s, { st with seriesSignatures := assocSet st.seriesSignatures g s })

/-- `PlaylistManager._has_series_changed`.  Note the mutation: the stored
signature is overwritten by `updateSeriesSignature` before the comparison. -/
def hasSeriesChanged (st : PMState) (g : String) : Bool × PMState :=
  if g ∈ st.recentlyUpdated then (false, st)
  else if (assocGet st.seriesSignatures g).isNone then (true, st)
  else
    let r := updateSeriesSignature st g
    (r.1 != ((assocGet r.2.seriesSignatures g).getD ""), r.2)

/-- `PlaylistManager._add_to_game_series`: no-op when the path or the disc
number is already present; otherwise append, re-sort, update signature. -/
def addToGameSeries (st : PMState) (g : String) (p : FsPath) (n : Nat) : PMState :=
  let discs := seriesOf st g
  if discs.any (fun e => e.1 == p || e.2 == n) then st
  else
    let st1 := { st with gameSeries := assocSet st.gameSeries g (sortByNum (discs ++ [(p, n)])) }
    (updateSeriesSignature st1 g).2

/-! ## JSON values and state persistence (`_save_state` / `_load_state`) -/

inductive Json where
  | jnull : Json
  | jbool : Bool → Json
  | jnum : Int → Json
  | jstr : String → Json
  | jarr : List Json → Json
  | jobj : List (String × Json) → Json

mutual

def Json.render : Json → String
  | .jnull => "null"
  | .jbool b => if b then "true" else "false"
  | .jnum i => toString i
  | .jstr s => "\"" ++ s ++ "\""
  | .jarr xs => "[" ++ Json.renderList xs ++ "]"
  | .jobj xs => "\x7b" ++ Json.renderObj xs ++ "\x7d"

def Json.renderList : List Json → String
  | [] => ""
  | [x] => x.render
  | x :: y :: xs => x.render ++ "," ++ Json.renderList (y :: xs)

def Json.renderObj : List (String × Json) → String
  | [] => ""
  | [(k, v)] => "\"" ++ k ++ "\":" ++ v.render
  | (k, v) :: y :: xs => "\"" ++ k ++ "\":" ++ v.render ++ "," ++ Json.renderObj (y :: xs)

end

def stateFilePath (st : PMState) : FsPath := ⟨st.outputDir, "playlist_state.json"⟩

/-- The serializable dictionary built by `_save_state`. -/
def stateJson (now : String) (st : PMState) : Json :=
  .jobj [
    ("game_series", .jobj (st.gameSeries.map fun e =>
      (e.1, .jarr (e.2.map fun d => .jarr [.jstr (pathToString d.1), .jnum d.2])))),
    ("created_playlists", .jarr (st.createdPlaylists.map .jstr)),
    ("user_customized", .jarr (st.userCustomized.map .jstr)),
    ("series_signatures", .jobj (st.seriesSignatures.map fun e => (e.1, .jstr e.2))),
    ("last_updated", .jstr now)]

/-- `PlaylistManager._save_state`: best-effort write of the JSON document to
the state file (rendered compactly here; the Python code pretty-prints). -/
def saveState (now : String) (st : PMState) (fs : Fs) : Fs :=
  ⟨assocSet fs.files (stateFilePath st) [(stateJson now st).render]⟩

/-- What `json.load` on the state file produced: a missing file, a file that
is not valid JSON (`json.load` raises), or a parsed JSON value. -/
inductive LoadInput where
  | missing : LoadInput
  | unparseable : LoadInput
  | parsed : Json → LoadInput

/-- One `(str(path), disc_num)` pair.  Disc numbers are modelled as naturals;
a negative or non-numeric disc number is treated as a decode failure (CPython
would store a non-int value unvalidated at this point). -/
def decodeDiscEntry : Json → Option (FsPath × Nat)
  | .jarr [.jstr p, .jnum (Int.ofNat n)] => some (strToPath p, n)
  | _ => none

/-- The list comprehension for one game: all-or-nothing (the exception fires
before the assignment for that game). -/
def decodeDiscList : Json → Option (List (FsPath × Nat))
  | .jarr xs =>
    xs.foldr (fun x acc => match decodeDiscEntry x, acc with
      | some e, some es => some (e :: es)
      | _, _ => none) (some [])
  | _ => none

/-- The per-game restore loop of `_load_state`: each successfully decoded
game is assigned before the next is attempted, so a malformed entry leaves
the earlier games restored (partial mutation, as in the Python loop). -/
def loadGames (st : PMState) : List (String × Json) → Bool × PMState
  | [] => (true, st)
  | (g, j) :: rest =>
    match decodeDiscList j with
    | some discs => loadGames { st with gameSeries := assocSet st.gameSeries g discs } rest
    | none => (false, st)

/-- `set(...)` of a JSON list of strings (a non-list or non-string member is
modelled as a failure; CPython raises on non-iterables and on unhashable
members). -/
def decodeStrList : Json → Option (List String)
  | .jarr xs =>
    xs.foldr (fun x acc => match x, acc with
      | .jstr s, some ss => some (s :: ss)
      | _, _ => none) (some [])
  | _ => none

def decodeStrMap : Json → Option (List (String × String))
  | .jobj kvs =>
    kvs.foldr (fun x acc => match x.2, acc with
      | .jstr s, some ss => some ((x.1, s) :: ss)
      | _, _ => none) (some [])
  | _ => none

/-- `PlaylistManager._load_state`.  Every exception is caught and turned into
a `false` result; mutations made before the exception persist. -/
def loadState (st : PMState) : LoadInput → Bool × PMState
  | .missing => (false, st)
  | .unparseable => (false, st)
  | .parsed j =>
    match j with
    | .jobj fields =>
      match (assocGet fields "game_series").getD (.jobj []) with
      | .jobj entries =>
        match loadGames st entries with
        | (false, st1) => (false, st1)
        | (true, st1) =>
          match decodeStrList ((assocGet fields "created_playlists").getD (.jarr [])) with
          | none => (false, st1)
          | some cps =>
            let st2 := { st1 with createdPlaylists := cps }
            match decodeStrList ((assocGet fields "user_customized").getD (.jarr [])) with
            | none => (false, st2)
            | some ucs =>
              let st3 := { st2 with userCustomized := ucs }
              match decodeStrMap ((assocGet fields "series_signatures").getD (.jobj [])) with
              | none => (false, st3)
              | some sigs =>
                (true, { st3 with seriesSignatures := sigs, recentlyUpdated := [] })
      | _ => (false, st)
    | _ => (false, st)

/-! ## Reading and writing playlists -/

def stripWs (s : String) : String := String.mk (stripEnds isPySpace s.toList)

/-- `PlaylistManager._read_m3u_file`: strip each line, skip blanks and
comments, keep lines ending in `.chd` (case-insensitively); a read error
yields `[]`. -/
def readM3uFile (fs : Fs) (p : FsPath) : List String :=
  match assocGet fs.files p with
  | none => []
  | some lines =>
    (lines.map stripWs).filter fun l =>
      !strIsEmpty l && !strStartsWith l "#" && strEndsWith (lowerStr l) ".chd"

/-- Entry line of `_update_user_customized_playlist`: bare name when the disc
lives in the output directory, else the full path. -/
def custEntryLine (st : PMState) (e : FsPath × Nat) : String :=
  if e.1.dir = st.outputDir then e.1.fname else pathToString e.1

/-- Entry line of `_create_standard_playlist` — note the trailing inline
`# Disc n` annotation. -/
def stdEntryLine (st : PMState) (e : FsPath × Nat) : String :=
  custEntryLine st e ++ " # Disc " ++ toString e.2

def custUpdateHeader (now : String) : List String :=
  ["", "# New entries added by 7z-to-CHD Converter", "# Added on: " ++ now]

/-- `m3u_path.with_suffix(".m3u.bak")`. -/
def backupName (s : String) : String := String.mk (pathStemChars s.toList) ++ ".m3u.bak"

def backupPathOf (p : FsPath) : FsPath := ⟨p.dir, backupName p.fname⟩

/-- `PlaylistManager._update_user_customized_playlist`.  Returns the playlist
path in every branch — including the `except` branch (`fsOk = false`, the
backup copy raising).  A missing file makes `shutil.copy2` raise as well. -/
def updateUserCustomizedPlaylist (fsOk : Bool) (now : String) (st : PMState)
    (fs : Fs) (g : String) (m3uPath : FsPath) : FsPath × Fs :=
  let existingFiles := (readM3uFile fs m3uPath).map entryBasename
  let newEntries := (seriesOf st g).filter fun e => e.1.fname ∉ existingFiles
  if newEntries.isEmpty then (m3uPath, fs)
  else
    match assocGet fs.files m3uPath with
    | none => (m3uPath, fs)
    | some old =>
      if !fsOk then (m3uPath, fs)
      else
        let fs1 : Fs := ⟨assocSet fs.files (backupPathOf m3uPath) old⟩
        let appended := custUpdateHeader now ++ (sortByNum newEntries).map (custEntryLine st)
        (m3uPath, ⟨assocSet fs1.files m3uPath (old ++ appended)⟩)

def natsJoined (ns : List Nat) : String :=
  joinSep ", " (ns.map toString)

/-- `range(1, max+1)` minus the actual disc numbers, ascending. -/
def missingOf (nums : List Nat) : List Nat :=
  (List.range' 1 (maxNat nums)).filter fun i => i ∉ nums

/-- The header block written by `_create_standard_playlist`. -/
def stdHeader (g now : String) (sortedDiscs : List (FsPath × Nat)) : List String :=
  let nums := sortedDiscs.map (·.2)
  let miss := missingOf nums
  ["# " ++ g ++ " - Multi-disc game playlist",
   markerLine,
   "# Last updated: " ++ now,
   "# Total discs: " ++ toString sortedDiscs.length ++ " (" ++ natsJoined nums ++ ")"]
  ++ (if miss.isEmpty then [] else ["# Missing discs: " ++ natsJoined miss])
  ++ ["#"]

/-- `PlaylistManager._create_standard_playlist`.  With `fsOk = false` the
`open` raises, nothing is written, and the function returns `None`. -/
def createStandardPlaylist (fsOk : Bool) (now : String) (st : PMState) (fs : Fs)
    (g : String) (m3uPath : FsPath) : Option FsPath × PMState × Fs :=
  if !fsOk then (none, st, fs)
  else
    let isNew := (assocGet fs.files m3uPath).isNone
    let sortedDiscs := sortByNum (seriesOf st g)
    let content := stdHeader g now sortedDiscs ++ sortedDiscs.map (stdEntryLine st)
    let fs1 : Fs := ⟨assocSet fs.files m3uPath content⟩
    let st1 := { st with createdPlaylists := setInsert st.createdPlaylists (cleanFilename g) }
    (some m3uPath, st1, if isNew then saveState now st1 fs1 else fs1)

/-- The `m3u_path.exists() and not self._has_series_changed(...)` test of
`update_playlist`: the signature check (and its signature-store side effect)
is only evaluated when the playlist file exists. -/
def skipCheck (st : PMState) (fs : Fs) (g : String) (m3uPath : FsPath) :
    Bool × PMState :=
  if (assocGet fs.files m3uPath).isSome then
    let c := hasSeriesChanged st g
    (!c.1, c.2)
  else (false, st)

/-- The managed-vs-customized dispatch of `update_playlist` (reached when the
skip test failed). -/
def writeDispatch (fsOk : Bool) (now : String) (st : PMState) (fs : Fs)
    (g : String) (m3uPath : FsPath) : Option FsPath × PMState × Fs :=
  if (assocGet fs.files m3uPath).isSome &&
      st.userCustomized.contains (cleanFilename g) then
    let u := updateUserCustomizedPlaylist fsOk now st fs g m3uPath
    (some u.1, st, u.2)
  else createStandardPlaylist fsOk now st fs g m3uPath

/-- `if result: self.recently_updated.add(base_game)` followed by
`return result`. -/
def markUpdated (g : String) (step : Option FsPath × PMState × Fs) :
    Option FsPath × PMState × Fs :=
  match step.1 with
  | some p => (some p, { step.2.1 with
      recentlyUpdated := setInsert step.2.1.recentlyUpdated g }, step.2.2)
  | none => (none, step.2.1, step.2.2)

/-- `PlaylistManager.update_playlist`. -/
def updatePlaylist (fsOk : Bool) (now : String) (st : PMState) (fs : Fs)
    (g : String) : Option FsPath × PMState × Fs :=
  match assocGet st.gameSeries g with
  | none => (none, st, fs)
  | some discs =>
    if discs.length ≤ 1 then (none, st, fs)
    else
      let m3uPath : FsPath := ⟨st.outputDir, cleanFilename g ++ ".m3u"⟩
      let r := skipCheck st fs g m3uPath
      if r.1 then (some m3uPath, r.2, fs)
      else markUpdated g (writeDispatch fsOk now r.2 fs g m3uPath)

/-! ## Orchestration: registration, directory scanning, incomplete sweep -/

/-- One `.chd` file of the output directory, as enumerated by
`self.output_dir.glob("*.chd")`. -/
def chdFilesIn (fs : Fs) (outDir : List String) : List FsPath :=
  (fs.files.map (·.1)).filter fun p =>
    p.dir == outDir && strEndsWith p.fname ".chd"

/-- One globbed `.chd` file folded into the store by
`_find_related_discs`: the four ad-hoc regexes are abstracted as
`relMatch base fname = some discNum` (the first pattern that matches, with
its captured group); a file whose name or matched number is already tracked
is skipped. -/
def relStep (relMatch : String → String → Option Nat) (g : String)
    (s : PMState) (p : FsPath) : PMState :=
  match relMatch g p.fname with
  | some dn =>
    if (seriesOf s g).any (fun e => e.1.fname == p.fname || e.2 == dn) then s
    else addToGameSeries s g p dn
  | none => s

/-- `PlaylistManager._find_related_discs`. -/
def findRelatedDiscs (relMatch : String → String → Option Nat) (st : PMState)
    (fs : Fs) (g : String) : PMState :=
  (chdFilesIn fs st.outputDir).foldl (relStep relMatch g) st

/-- `PlaylistManager.register_disc`.  `if not disc_num:` is Python falsiness:
both a missing disc number and disc number `0` abort the registration before
any state or filesystem mutation. -/
def registerDisc (relMatch : String → String → Option Nat) (fsOk : Bool)
    (now : String) (updatePlaylists : Bool) (st : PMState) (fs : Fs)
    (chdPath : FsPath) : Option String × PMState × Fs :=
  let parsed := extractBaseNameAndDisc (pathStem chdPath.fname)
  match parsed.2 with
  | none => (none, st, fs)
  | some 0 => (none, st, fs)
  | some dn =>
    let g := parsed.1
    let st1 := addToGameSeries st g chdPath dn
    let st2 := findRelatedDiscs relMatch st1 fs g
    let next :=
      if updatePlaylists && decide (1 < (seriesOf st2 g).length) then
        let nums := (seriesOf st2 g).map (·.2)
        let maxD := maxNat nums
        let isComplete := (List.range' 1 maxD).all fun i => nums.contains i
        if isComplete || dn == maxD then
          let u := updatePlaylist fsOk now st2 fs g
          (u.2.1, u.2.2)
        else (st2, fs)
      else (st2, fs)
    (some g, next.1, saveState now next.1 next.2)

/-- One playlist line folded into the store by `_scan_existing_playlists`:
`if disc_num:` (Python falsiness) admits only positive disc numbers. -/
def scanEntryStep (pname : String) (s : PMState) (entry : String) : PMState :=
  match (extractBaseNameAndDisc (pathStem entry)).2 with
  | some (n + 1) => addToGameSeries s pname (strToPath entry) (n + 1)
  | _ => s

/-- Processing of a single existing `.m3u` by `_scan_existing_playlists`:
record it as created, classify it as user-customized when its content lacks
the marker comment, and track disc entries parsed out of its lines. -/
def scanOneM3u (st : PMState) (fs : Fs) (p : FsPath) : PMState :=
  let st0 := { st with createdPlaylists := setInsert st.createdPlaylists (pathStem p.fname) }
  match assocGet fs.files p with
  | none => st0
  | some lines =>
    let chdFiles := readM3uFile fs p
    let st1 := if lines.any (lineContains markerLine) then st0
      else { st0 with userCustomized := setInsert st0.userCustomized (pathStem p.fname) }
    if 1 < chdFiles.length then chdFiles.foldl (scanEntryStep (pathStem p.fname)) st1
    else st1

/-- `PlaylistManager._scan_existing_playlists`. -/
def scanExistingPlaylists (st : PMState) (fs : Fs) : PMState :=
  let m3us := (fs.files.map (·.1)).filter fun p =>
    p.dir == st.outputDir && strEndsWith p.fname ".m3u"
  m3us.foldl (fun s p => scanOneM3u s fs p) st

/-- The `has_consecutive` loop of `check_for_incomplete_series`: no `i`
with `1 ≤ i < max` such that `i` is missing while `i + 1` is present
(the claim's "no orphaned gap"). -/
def noOrphanGapB (nums : List Nat) : Bool :=
  (List.range' 1 (maxNat nums - 1)).all fun i =>
    nums.contains i || !(nums.contains (i + 1))

/-- The per-title body of the loop in `check_for_incomplete_series`
(`force_scan = False`, the default used by `converter.py`). -/
def sweepStep (relMatch : String → String → Option Nat) (fsOk : Bool)
    (now : String) (minDiscs expectedMax : Nat) (g : String)
    (acc : List (String × FsPath) × PMState × Fs) :
    List (String × FsPath) × PMState × Fs :=
  let cr := acc.1
  let s0 := acc.2.1
  let f0 := acc.2.2
  let s1 := if (seriesOf s0 g).length == minDiscs
    then findRelatedDiscs relMatch s0 f0 g else s0
  let discs := seriesOf s1 g
  if minDiscs ≤ discs.length then
    let nums := sortNats (discs.map (·.2))
    let maxD := maxNat nums
    if maxD ≤ expectedMax then
      if nums.contains 1 || minNat nums < 3 then
        let hasConsecutive := noOrphanGapB nums
        if hasConsecutive then
          let u := updatePlaylist fsOk now s1 f0 g
          match u.1 with
          | some p => (cr ++ [(g, p)], u.2.1, u.2.2)
          | none => (cr, u.2.1, u.2.2)
        else (cr, s1, f0)
      else (cr, s1, f0)
    else (cr, s1, f0)
  else (cr, s1, f0)

def sweepLoop (relMatch : String → String → Option Nat) (fsOk : Bool)
    (now : String) (minDiscs expectedMax : Nat) :
    List String → List (String × FsPath) × PMState × Fs →
    List (String × FsPath) × PMState × Fs
  | [], acc => acc
  | g :: gs, acc =>
    sweepLoop relMatch fsOk now minDiscs expectedMax gs
      (sweepStep relMatch fsOk now minDiscs expectedMax g acc)

/-- `PlaylistManager.check_for_incomplete_series` with `force_scan = False`:
iterate over the tracked titles (Python dict order = insertion order; the
key set is not mutated during the loop), then save state if anything was
created. -/
def checkForIncompleteSeries (relMatch : String → String → Option Nat)
    (fsOk : Bool) (now : String) (minDiscs expectedMax : Nat) (st : PMState)
    (fs : Fs) : List (String × FsPath) × PMState × Fs :=
  let r := sweepLoop relMatch fsOk now minDiscs expectedMax
    (st.gameSeries.map (·.1)) ([], st, fs)
  (r.1, r.2.1, if r.1.isEmpty then r.2.2 else saveState now r.2.1 r.2.2)

/-! ## Basic lemmas about the store primitives -/

theorem assocGet_set_same {κ α : Type} [DecidableEq κ] (l : List (κ × α)) (k : κ)
    (v : α) : assocGet (assocSet l k v) k = some v := by
  induction l with
  | nil => simp [assocSet, assocGet]
  | cons x xs ih =>
    by_cases h : k = x.1
    · simp [assocSet, assocGet, h]
    · simp [assocSet, assocGet, h, ih]

theorem assocGet_set_ne {κ α : Type} [DecidableEq κ] (l : List (κ × α)) (k q : κ)
    (v : α) (h : q ≠ k) : assocGet (assocSet l k v) q = assocGet l q := by
  induction l with
  | nil => simp [assocSet, assocGet, h]
  | cons x xs ih =>
    by_cases hk : k = x.1
    · subst hk
      simp [assocSet, assocGet, h]
    · by_cases hq : q = x.1 <;> simp [assocSet, assocGet, hk, hq, ih]

theorem insertByNum_perm (x : FsPath × Nat) (l : List (FsPath × Nat)) :
    (insertByNum x l).Perm (x :: l) := by
  induction l with
  | nil => simp [insertByNum]
  | cons y ys ih =>
    by_cases h : x.2 ≤ y.2
    · simp [insertByNum, h]
    · simp only [insertByNum, h, if_false]
      exact ((ih.cons y).trans (List.Perm.swap x y ys))

theorem sortByNum_perm (l : List (FsPath × Nat)) : (sortByNum l).Perm l := by
  induction l with
  | nil => simp [sortByNum]
  | cons x xs ih => exact (insertByNum_perm x (sortByNum xs)).trans (ih.cons x)

theorem insertByNum_pairwise (x : FsPath × Nat) (l : List (FsPath × Nat))
    (h : l.Pairwise fun a b => a.2 ≤ b.2) :
    (insertByNum x l).Pairwise fun a b => a.2 ≤ b.2 := by
  induction l with
  | nil => simp [insertByNum]
  | cons y ys ih =>
    rcases h with _ | ⟨hy, hys⟩
    by_cases hle : x.2 ≤ y.2
    · simp only [insertByNum, hle, if_true]
      refine List.Pairwise.cons ?_ (List.Pairwise.cons hy hys)
      intro b hb
      rcases List.mem_cons.mp hb with rfl | hb
      · exact hle
      · exact le_trans hle (hy b hb)
    · simp only [insertByNum, hle, if_false]
      refine List.Pairwise.cons ?_ (ih hys)
      intro b hb
      rcases List.mem_cons.mp ((insertByNum_perm x ys).mem_iff.mp hb) with rfl | hb
      · exact le_of_not_le hle
      · exact hy b hb

theorem sortByNum_pairwise (l : List (FsPath × Nat)) :
    (sortByNum l).Pairwise fun a b => a.2 ≤ b.2 := by
  induction l with
  | nil => simp [sortByNum]
  | cons x xs ih => exact insertByNum_pairwise x (sortByNum xs) ih

/-! Field-preservation facts: each helper only mutates the attributes the
Python method assigns to. -/

theorem updateSeriesSignature_fields (st : PMState) (g : String) :
    (updateSeriesSignature st g).2.gameSeries = st.gameSeries ∧
    (updateSeriesSignature st g).2.outputDir = st.outputDir ∧
    (updateSeriesSignature st g).2.userCustomized = st.userCustomized ∧
    (updateSeriesSignature st g).2.createdPlaylists = st.createdPlaylists ∧
    (updateSeriesSignature st g).2.recentlyUpdated = st.recentlyUpdated := by
  cases h : assocGet st.gameSeries g <;> simp [updateSeriesSignature, h]

theorem hasSeriesChanged_fields (st : PMState) (g : String) :
    (hasSeriesChanged st g).2.gameSeries = st.gameSeries ∧
    (hasSeriesChanged st g).2.outputDir = st.outputDir ∧
    (hasSeriesChanged st g).2.userCustomized = st.userCustomized ∧
    (hasSeriesChanged st g).2.createdPlaylists = st.createdPlaylists ∧
    (hasSeriesChanged st g).2.recentlyUpdated = st.recentlyUpdated := by
  unfold hasSeriesChanged
  by_cases h1 : g ∈ st.recentlyUpdated
  · simp [h1]
  · by_cases h2 : (assocGet st.seriesSignatures g).isNone <;>
      simp [h1, h2, updateSeriesSignature_fields]

theorem addToGameSeries_fields (st : PMState) (g : String) (p : FsPath) (n : Nat) :
    (addToGameSeries st g p n).outputDir = st.outputDir ∧
    (addToGameSeries st g p n).userCustomized = st.userCustomized ∧
    (addToGameSeries st g p n).createdPlaylists = st.createdPlaylists ∧
    (addToGameSeries st g p n).recentlyUpdated = st.recentlyUpdated := by
  unfold addToGameSeries
  by_cases h : (seriesOf st g).any fun e => e.1 == p || e.2 == n
  · simp [h]
  · simp [h, updateSeriesSignature_fields]

theorem createStandardPlaylist_fields (fsOk : Bool) (now : String) (st : PMState)
    (fs : Fs) (g : String) (m3u : FsPath) :
    (createStandardPlaylist fsOk now st fs g m3u).2.1.gameSeries = st.gameSeries ∧
    (createStandardPlaylist fsOk now st fs g m3u).2.1.outputDir = st.outputDir ∧
    (createStandardPlaylist fsOk now st fs g m3u).2.1.userCustomized = st.userCustomized := by
  cases fsOk <;> simp [createStandardPlaylist]

theorem skipCheck_fields (st : PMState) (fs : Fs) (g : String) (m3u : FsPath) :
    (skipCheck st fs g m3u).2.gameSeries = st.gameSeries ∧
    (skipCheck st fs g m3u).2.outputDir = st.outputDir ∧
    (skipCheck st fs g m3u).2.userCustomized = st.userCustomized ∧
    (skipCheck st fs g m3u).2.recentlyUpdated = st.recentlyUpdated := by
  unfold skipCheck
  by_cases h : (assocGet fs.files m3u).isSome <;>
    simp [h, hasSeriesChanged_fields]

theorem writeDispatch_fields (fsOk : Bool) (now : String) (st : PMState)
    (fs : Fs) (g : String) (m3u : FsPath) :
    (writeDispatch fsOk now st fs g m3u).2.1.gameSeries = st.gameSeries ∧
    (writeDispatch fsOk now st fs g m3u).2.1.outputDir = st.outputDir ∧
    (writeDispatch fsOk now st fs g m3u).2.1.userCustomized = st.userCustomized := by
  unfold writeDispatch
  split
  · simp
  · exact createStandardPlaylist_fields fsOk now st fs g m3u

theorem markUpdated_fields (g : String) (step : Option FsPath × PMState × Fs) :
    (markUpdated g step).1 = step.1 ∧
    (markUpdated g step).2.1.gameSeries = step.2.1.gameSeries ∧
    (markUpdated g step).2.1.outputDir = step.2.1.outputDir ∧
    (markUpdated g step).2.1.userCustomized = step.2.1.userCustomized ∧
    (markUpdated g step).2.2 = step.2.2 := by
  rcases hs : step.1 with _ | p <;> simp [markUpdated, hs]

theorem updatePlaylist_fields (fsOk : Bool) (now : String) (st : PMState)
    (fs : Fs) (g : String) :
    (updatePlaylist fsOk now st fs g).2.1.gameSeries = st.gameSeries ∧
    (updatePlaylist fsOk now st fs g).2.1.outputDir = st.outputDir := by
  unfold updatePlaylist
  cases hd : assocGet st.gameSeries g with
  | none => simp
  | some discs =>
    by_cases hlen : discs.length ≤ 1
    · simp [hlen]
    · simp only [hlen, if_false]
      split
      · exact ⟨(skipCheck_fields st fs g _).1, (skipCheck_fields st fs g _).2.1⟩
      · have hsk := skipCheck_fields st fs g ⟨st.outputDir, cleanFilename g ++ ".m3u"⟩
        have hwd := writeDispatch_fields fsOk now
          (skipCheck st fs g ⟨st.outputDir, cleanFilename g ++ ".m3u"⟩).2 fs g
          ⟨st.outputDir, cleanFilename g ++ ".m3u"⟩
        have hmu := markUpdated_fields g
          (writeDispatch fsOk now
            (skipCheck st fs g ⟨st.outputDir, cleanFilename g ++ ".m3u"⟩).2 fs g
            ⟨st.outputDir, cleanFilename g ++ ".m3u"⟩)
        exact ⟨hmu.2.1.trans (hwd.1.trans hsk.1),
          hmu.2.2.1.trans (hwd.2.1.trans hsk.2.1)⟩

/-! ## Concrete scenario material used by several claims -/

def outDir0 : List String := ["", "out"]

/-- A related-disc matcher that matches nothing: the directory rescan of
`_find_related_discs` finds no additional files. -/
def relNone : String → String → Option Nat := fun _ _ => none

/-- A state file whose saved signature for `Game` does not describe its
saved disc list (e.g. written by an older version or damaged in place);
`_load_state` restores it verbatim. -/
def staleJson : Json :=
  .jobj [
    ("game_series", .jobj [("Game", .jarr [
      .jarr [.jstr "Game (Disc 1).chd", .jnum 1],
      .jarr [.jstr "Game (Disc 2).chd", .jnum 2]])]),
    ("series_signatures", .jobj [("Game", .jstr "stale")])]

def staleSt : PMState := (loadState (emptyPM outDir0) (.parsed staleJson)).2

/-- Claim C1 (code_bug evidence): a state whose stored signature differs from
the signature of its current disc set, with the title not in the
recently-updated set — yet `has_series_changed` returns `false`, because
`_update_series_signature` overwrites the stored signature before the
comparison in `_has_series_changed` is made.  The claim (and the function's
own docstring) say it must return `true` here. -/
theorem claim1_change_detection_broken :
    (loadState (emptyPM outDir0) (.parsed staleJson)).1 = true ∧
    "Game" ∉ staleSt.recentlyUpdated ∧
    (assocGet staleSt.seriesSignatures "Game") = some "stale" ∧
    sigOfDiscs (seriesOf staleSt "Game") ≠ "stale" ∧
    (hasSeriesChanged staleSt "Game").1 = false := by decide

/-! ### Claim C2: the `Foo` disc 2, 1, 3 registration scenario -/

def fooChd (n : Nat) : FsPath := ⟨outDir0, "Foo (Disc " ++ toString n ++ ").chd"⟩

/-- Register `Foo (Disc 2).chd` into an empty store; the converted file is
present in the output directory when it is registered. -/
def fooReg1 : Option String × PMState × Fs :=
  registerDisc relNone true "T" true (emptyPM outDir0) ⟨[(fooChd 2, [])]⟩ (fooChd 2)

def fooFs1 : Fs := ⟨assocSet fooReg1.2.2.files (fooChd 1) []⟩

def fooReg2 : Option String × PMState × Fs :=
  registerDisc relNone true "T" true fooReg1.2.1 fooFs1 (fooChd 1)

def fooFs2 : Fs := ⟨assocSet fooReg2.2.2.files (fooChd 3) []⟩

def fooReg3 : Option String × PMState × Fs :=
  registerDisc relNone true "T" true fooReg2.2.1 fooFs2 (fooChd 3)

def fooM3u : FsPath := ⟨outDir0, "Foo.m3u"⟩

/-- The playlist content created after the *second* registration (disc 1):
only discs 1 and 2. -/
def fooContent12 : List String :=
  ["# Foo - Multi-disc game playlist", "# Created by 7z-to-CHD Converter",
   "# Last updated: T", "# Total discs: 2 (1, 2)", "#",
   "Foo (Disc 1).chd # Disc 1", "Foo (Disc 2).chd # Disc 2"]

/-- Claim C2 (code_bug evidence): registering `Foo` discs in the order
2, 1, 3 creates `Foo.m3u` already after disc 1 is registered (discs `{1,2}`
form a complete series at that point), and registering disc 3 leaves the
file byte-identical — the update is suppressed by the recently-updated set
and the self-overwriting signature check — so the only playlist of the run
never lists disc 3, although the store tracks all three discs.  The claim
says the single playlist is created after disc 3 and lists all three. -/
theorem claim2_playlist_created_early_and_never_updated :
    fooReg1.1 = some "Foo" ∧
    assocGet fooReg1.2.2.files fooM3u = none ∧
    assocGet fooReg2.2.2.files fooM3u = some fooContent12 ∧
    assocGet fooReg3.2.2.files fooM3u = some fooContent12 ∧
    (fooReg3.2.2.files.filter (fun e => strEndsWith e.1.fname ".m3u")).map (·.1)
      = [fooM3u] ∧
    (seriesOf fooReg3.2.1 "Foo").map (·.2) = [1, 2, 3] ∧
    fooContent12.all (fun l => !(lineContains "Disc 3" l)) = true := by decide

/-! ### Claim C5: best-effort state loading -/

/-- A structurally damaged state file that is still valid JSON: game `A` is
well-formed, game `B`'s disc list holds a bare string (`for path, disc_num
in disc_list` raises on it). -/
def malformedStateJson : Json :=
  .jobj [("game_series", .jobj [
    ("A", .jarr [.jarr [.jstr "p.chd", .jnum 1]]),
    ("B", .jarr [.jstr "bad"])])]

/-- Claim C5 (counterexample): loading the damaged-but-parseable state file
reports failure without raising, but the store is *not* left in the empty
initial state — game `A` has already been restored when the malformed entry
for `B` raises. -/
theorem claim5_counterexample :
    (loadState (emptyPM outDir0) (.parsed malformedStateJson)).1 = false ∧
    (loadState (emptyPM outDir0) (.parsed malformedStateJson)).2 ≠ emptyPM outDir0 ∧
    (loadState (emptyPM outDir0) (.parsed malformedStateJson)).2.gameSeries =
      [("A", [(⟨[], "p.chd"⟩, 1)])] := by decide

/-- Claim C5 (amended): loading never propagates an error — the result is a
failure flag.  A missing state file and a file `json.load` cannot parse
leave the store exactly as it was (empty at startup); a parseable file with
malformed structure may instead leave a partial restore of the entries
processed before the error, as the concrete conjunct shows. -/
theorem claim5_load_best_effort (st : PMState) :
    loadState st LoadInput.missing = (false, st) ∧
    loadState st LoadInput.unparseable = (false, st) ∧
    ((loadState (emptyPM outDir0) (.parsed malformedStateJson)).1 = false ∧
     (loadState (emptyPM outDir0) (.parsed malformedStateJson)).2.gameSeries =
       [("A", [(⟨[], "p.chd"⟩, 1)])]) :=
  ⟨rfl, rfl, by decide, by decide⟩

/-! ### Claim C6: write-failure reporting -/

def st6c : PMState :=
  { emptyPM outDir0 with
    gameSeries := [("Foo", [(fooChd 1, 1), (fooChd 2, 2)])],
    userCustomized := ["Foo"] }

def fs6c : Fs := ⟨[(fooM3u, ["My Stuff.chd"])]⟩

/-- Claim C6 (counterexample): a filesystem error during the write of a
user-customized playlist (`fsOk = false`: the backup copy raises) is caught,
but `update_playlist` still returns the playlist path — the claim says a
failed write returns no path.  The caller even marks the title as recently
updated, as if the write had succeeded. -/
theorem claim6_counterexample :
    (updatePlaylist false "T" st6c fs6c "Foo").1 = some fooM3u ∧
    (updatePlaylist false "T" st6c fs6c "Foo").2.2 = fs6c ∧
    "Foo" ∈ (updatePlaylist false "T" st6c fs6c "Foo").2.1.recentlyUpdated := by
  decide

/-- Claim C6 (amended): filesystem errors during a playlist write are caught
and do not abort the batch (both writers return normally, leaving state and
filesystem as they were); the managed writer reports the failure by
returning no path, but the user-customized writer returns the playlist path
even when the write failed, so its caller cannot observe the failure. -/
theorem claim6_write_failure_reporting (now : String) (st : PMState) (fs : Fs)
    (g : String) (p : FsPath) :
    createStandardPlaylist false now st fs g p = (none, st, fs) ∧
    (updateUserCustomizedPlaylist false now st fs g p).1 = p ∧
    (updateUserCustomizedPlaylist false now st fs g p).2 = fs := by
  have h : updateUserCustomizedPlaylist false now st fs g p = (p, fs) := by
    unfold updateUserCustomizedPlaylist
    dsimp only
    split
    · rfl
    · split <;> rfl
  exact ⟨rfl, by rw [h], by rw [h]⟩

/-! ### Claim C7: totality and the no-marker case of the name parser -/

/-- Claim C7 (counterexample): `"Mr. Do"` matches none of the disc-marker
patterns (it has no digits), yet the parser returns `("Mr", none)` rather
than `("Mr. Do", none)`: `Path(filename).stem` strips the dot-suffix
`". Do"` before the patterns are tried. -/
theorem claim7_counterexample :
    extractLoop discMatchers ("Mr. Do").toList = none ∧
    extractBaseNameAndDisc "Mr. Do" = ("Mr", none) ∧
    (("Mr" : String), (none : Option Nat)) ≠ (("Mr. Do" : String), (none : Option Nat)) := by
  decide

/-- Claim C7 (amended): the parser is total (it is a Lean function on all
strings), and on any input whose stem matches none of the disc-marker
patterns it returns the *stem* of the input with no disc index — which
equals the input itself exactly when the input carries no dot-suffix. -/
theorem claim7_parse_no_marker (s : String)
    (h : extractLoop discMatchers (pathStem s).toList = none) :
    extractBaseNameAndDisc s = (pathStem s, none) := by
  have h2 : extractLoop discMatchers (pathStem s).data = none := h
  simp [extractBaseNameAndDisc, h2]

theorem claim7_witness :
    extractLoop discMatchers (pathStem "Plain Game").toList = none ∧
    extractBaseNameAndDisc "Plain Game" = (pathStem "Plain Game", none) :=
  ⟨by decide, claim7_parse_no_marker "Plain Game" (by decide)⟩

/-! ### Claim C4: the shape of a managed playlist -/

theorem startsWithChars_hash_append (l l2 : List Char)
    (h : startsWithChars ['#'] l = true) :
    startsWithChars ['#'] (l ++ l2) = true := by
  cases l with
  | nil => simp [startsWithChars] at h
  | cons c cs =>
    simp [startsWithChars] at h ⊢
    exact h

theorem strStartsWith_hash_append (a b : String)
    (h : strStartsWith a "#" = true) :
    strStartsWith (a ++ b) "#" = true := by
  have h2 : startsWithChars ['#'] (a.data ++ b.data) = true :=
    startsWithChars_hash_append a.data b.data h
  show startsWithChars ['#'] (a ++ b).data = true
  rw [String.data_append]
  exact h2

def st4c : PMState :=
  { emptyPM outDir0 with
    gameSeries := [("Foo", [(fooChd 1, 1), (fooChd 2, 2)])] }

/-- Unfolding of the successful managed write: the playlist content is set,
then the state file is rewritten when the playlist is new. -/
theorem createStandardPlaylist_true_fs (now : String) (st : PMState) (fs : Fs)
    (g : String) (m3u : FsPath) :
    (createStandardPlaylist true now st fs g m3u).2.2 =
      (if (assocGet fs.files m3u).isNone then
        saveState now
          { st with createdPlaylists := setInsert st.createdPlaylists (cleanFilename g) }
          ⟨assocSet fs.files m3u (stdHeader g now (sortByNum (seriesOf st g)) ++
            (sortByNum (seriesOf st g)).map (stdEntryLine st))⟩
      else ⟨assocSet fs.files m3u (stdHeader g now (sortByNum (seriesOf st g)) ++
        (sortByNum (seriesOf st g)).map (stdEntryLine st))⟩) := rfl

/-- Claim C4 (counterexample): the disc lines of a managed playlist are not
"exactly the disc's bare filename": the writer appends an inline
`" # Disc n"` annotation, so the non-comment line for disc 1 is
`Foo (Disc 1).chd # Disc 1`, which is neither the bare filename nor the
full path (and, notably, is not even recognized by `_read_m3u_file`, whose
filter requires lines to *end* in `.chd`). -/
theorem claim4_counterexample :
    assocGet (createStandardPlaylist true "T" st4c ⟨[]⟩ "Foo" fooM3u).2.2.files
      fooM3u = some fooContent12 ∧
    fooContent12.get? 5 = some "Foo (Disc 1).chd # Disc 1" ∧
    strStartsWith "Foo (Disc 1).chd # Disc 1" "#" = false ∧
    "Foo (Disc 1).chd # Disc 1" ≠ (fooChd 1).fname ∧
    "Foo (Disc 1).chd # Disc 1" ≠ pathToString (fooChd 1) ∧
    readM3uFile (createStandardPlaylist true "T" st4c ⟨[]⟩ "Foo" fooM3u).2.2
      fooM3u = [] := by decide

/-- Claim C4 (amended): every managed playlist write produces a header of
`#`-comment lines containing the fixed marker, followed by one line per
tracked disc sorted by disc index, where each disc line is the bare filename
(when the disc and the playlist share a directory) or the full path,
*followed by the annotation `" # Disc <index>"`*. -/
theorem claim4_managed_playlist_format (st : PMState) (fs : Fs) (g now : String)
    (m3u : FsPath) (_hne : seriesOf st g ≠ [])
    (hstate : m3u ≠ stateFilePath st) :
    ∃ sorted : List (FsPath × Nat),
      sorted.Perm (seriesOf st g) ∧
      (sorted.map (·.2)).Pairwise (· ≤ ·) ∧
      assocGet (createStandardPlaylist true now st fs g m3u).2.2.files m3u =
        some (stdHeader g now sorted ++ sorted.map (stdEntryLine st)) ∧
      (∀ l ∈ stdHeader g now sorted, strStartsWith l "#" = true) ∧
      markerLine ∈ stdHeader g now sorted ∧
      ∀ e ∈ sorted, stdEntryLine st e =
        (if e.1.dir = st.outputDir then e.1.fname else pathToString e.1) ++
          " # Disc " ++ toString e.2 := by
  refine ⟨sortByNum (seriesOf st g), sortByNum_perm _, ?_, ?_, ?_, ?_, ?_⟩
  · exact List.pairwise_map.mpr (sortByNum_pairwise _)
  · rw [createStandardPlaylist_true_fs]
    have hkey : stateFilePath
        { st with createdPlaylists := setInsert st.createdPlaylists (cleanFilename g) } =
        stateFilePath st := rfl
    split
    · unfold saveState
      dsimp only
      rw [hkey, assocGet_set_ne _ _ _ _ hstate]
      exact assocGet_set_same _ _ _
    · exact assocGet_set_same _ _ _
  · intro l hl
    simp only [stdHeader] at hl
    by_cases hm :
        (missingOf (List.map (·.2) (sortByNum (seriesOf st g)))).isEmpty = true
    · simp [hm] at hl
      rcases hl with rfl | rfl | rfl | rfl | rfl
      all_goals repeat' apply strStartsWith_hash_append
      all_goals decide
    · simp [hm] at hl
      rcases hl with rfl | rfl | rfl | rfl | rfl | rfl
      all_goals repeat' apply strStartsWith_hash_append
      all_goals decide
  · simp only [stdHeader]
    by_cases hm :
        (missingOf (List.map (·.2) (sortByNum (seriesOf st g)))).isEmpty = true <;>
      simp [hm, markerLine]
  · intro e he
    rfl

/-- Witness for the amended C4 at a concrete two-disc store. -/
theorem claim4_witness :
    (seriesOf st4c "Foo" ≠ [] ∧ fooM3u ≠ stateFilePath st4c) ∧
    ∃ sorted : List (FsPath × Nat),
      sorted.Perm (seriesOf st4c "Foo") ∧
      (sorted.map (·.2)).Pairwise (· ≤ ·) ∧
      assocGet (createStandardPlaylist true "T" st4c ⟨[]⟩ "Foo" fooM3u).2.2.files
        fooM3u = some (stdHeader "Foo" "T" sorted ++ sorted.map (stdEntryLine st4c)) ∧
      (∀ l ∈ stdHeader "Foo" "T" sorted, strStartsWith l "#" = true) ∧
      markerLine ∈ stdHeader "Foo" "T" sorted ∧
      ∀ e ∈ sorted, stdEntryLine st4c e =
        (if e.1.dir = st4c.outputDir then e.1.fname else pathToString e.1) ++
          " # Disc " ++ toString e.2 :=
  ⟨⟨by decide, by decide⟩,
   claim4_managed_playlist_format st4c ⟨[]⟩ "Foo" "T" fooM3u (by decide) (by decide)⟩

/-! ### Claim C3: user-customized playlists are preserved -/

theorem backupName_last (s : String) :
    (backupName s).data.getLast? = some 'k' := by
  have h1 : (backupName s).data = pathStemChars s.toList ++ ('.' :: "m3u.bak".toList) :=
    rfl
  rw [h1, List.getLast?_append_of_ne_nil _ (by simp)]
  decide

theorem m3uName_last (x : String) :
    (x ++ ".m3u").data.getLast? = some 'u' := by
  rw [String.data_append,
    show (".m3u".data : List Char) = '.' :: "m3u".toList from rfl,
    List.getLast?_append_of_ne_nil _ (by simp)]
  decide

theorem backupPathOf_ne_m3u (d : List String) (x : String) :
    backupPathOf ⟨d, x ++ ".m3u"⟩ ≠ (⟨d, x ++ ".m3u"⟩ : FsPath) := by
  intro h
  have hf : backupName (x ++ ".m3u") = x ++ ".m3u" := congrArg FsPath.fname h
  have h1 := backupName_last (x ++ ".m3u")
  rw [hf] at h1
  have h2 := (m3uName_last x).symm.trans h1
  exact absurd h2 (by decide)

/-- What a user-customized update does to the filesystem: either nothing, or
a backup of the old content plus an append of a comment block and the
not-yet-listed discs' entries. -/
theorem updateUserCustomizedPlaylist_spec (fsOk : Bool) (now : String)
    (st : PMState) (fs : Fs) (g : String) (m3u : FsPath) (L : FileLines)
    (hfile : assocGet fs.files m3u = some L)
    (hbak : backupPathOf m3u ≠ m3u) :
    ∃ app,
      assocGet (updateUserCustomizedPlaylist fsOk now st fs g m3u).2.files m3u =
        some (L ++ app) ∧
      (app = [] ∨
        ∃ entries, app = custUpdateHeader now ++ entries ∧
          assocGet (updateUserCustomizedPlaylist fsOk now st fs g m3u).2.files
            (backupPathOf m3u) = some L ∧
          ∀ e ∈ entries, ∃ d, d ∈ seriesOf st g ∧ e = custEntryLine st d ∧
            d.1.fname ∉ (readM3uFile fs m3u).map entryBasename) := by
  unfold updateUserCustomizedPlaylist
  dsimp only
  split
  · exact ⟨[], by rw [List.append_nil]; exact hfile, Or.inl rfl⟩
  · simp only [hfile]
    cases fsOk with
    | false => exact ⟨[], by rw [List.append_nil]; exact hfile, Or.inl rfl⟩
    | true =>
      rw [if_neg (show ¬((!true) = true) from by decide)]
      refine ⟨custUpdateHeader now ++
        (sortByNum ((seriesOf st g).filter fun e =>
          e.1.fname ∉ (readM3uFile fs m3u).map entryBasename)).map (custEntryLine st),
        ?_, Or.inr ⟨_, rfl, ?_, ?_⟩⟩
      · rw [show (L ++ (custUpdateHeader now ++ _)) = L ++ custUpdateHeader now ++ _ from
          (List.append_assoc _ _ _).symm]
        exact assocGet_set_same _ _ _
      · rw [assocGet_set_ne _ _ _ _ hbak]
        exact assocGet_set_same _ _ _
      · intro e he
        obtain ⟨d, hd, rfl⟩ := List.mem_map.mp he
        have hd2 := (sortByNum_perm _).mem_iff.mp hd
        obtain ⟨hd3, hd4⟩ := List.mem_filter.mp hd2
        exact ⟨d, hd3, rfl, of_decide_eq_true hd4⟩

theorem setInsert_mem_self (l : List String) (x : String) : x ∈ setInsert l x := by
  unfold setInsert
  by_cases h : x ∈ l <;> simp [h]

theorem scanEntryStep_userCustomized (pname : String) (s : PMState)
    (entry : String) :
    (scanEntryStep pname s entry).userCustomized = s.userCustomized := by
  unfold scanEntryStep
  rcases hx : (extractBaseNameAndDisc (pathStem entry)).2 with _ | n
  · rfl
  · cases n with
    | zero => rfl
    | succ k => exact (addToGameSeries_fields _ _ _ _).2.1

/-- The disc-entry tracking pass over an existing playlist's lines touches
only the game-series store, never the classification sets. -/
theorem scanFold_userCustomized (pname : String) (l : List String) :
    ∀ s : PMState,
      (l.foldl (scanEntryStep pname) s).userCustomized = s.userCustomized := by
  induction l with
  | nil => exact fun s => rfl
  | cons e es ih =>
    intro s
    rw [List.foldl_cons, ih, scanEntryStep_userCustomized]

/-- Claim C3: for a playlist file classified user-customized (its content
lacks the marker line, and the scan put its stem into the customized set),
any playlist write for its title preserves the existing lines verbatim and
in order: the new content is the old content plus an appended block, the
appended block (when nonempty) is the timestamped comment header followed by
entries only for discs whose filenames are not already listed, and in that
case a `.bak` backup holding exactly the old content is created.  The first
conjunct checks the classification itself: scanning the file puts its stem
into the user-customized set. -/
theorem claim3_customized_playlist_preserved (fsOk : Bool) (now : String)
    (st : PMState) (fs : Fs) (g : String) (L : FileLines)
    (hmem : st.userCustomized.contains (cleanFilename g) = true)
    (hfile : assocGet fs.files
      (⟨st.outputDir, cleanFilename g ++ ".m3u"⟩ : FsPath) = some L)
    (hmark : L.any (lineContains markerLine) = false) :
    (pathStem (cleanFilename g ++ ".m3u") ∈
      (scanOneM3u st fs ⟨st.outputDir, cleanFilename g ++ ".m3u"⟩).userCustomized) ∧
    ∃ app,
      assocGet (updatePlaylist fsOk now st fs g).2.2.files
          ⟨st.outputDir, cleanFilename g ++ ".m3u"⟩ = some (L ++ app) ∧
      (app = [] ∨
        ∃ entries, app = custUpdateHeader now ++ entries ∧
          assocGet (updatePlaylist fsOk now st fs g).2.2.files
              (backupPathOf ⟨st.outputDir, cleanFilename g ++ ".m3u"⟩) =
            some L ∧
          ∀ e ∈ entries, ∃ d, d ∈ seriesOf st g ∧ e = custEntryLine st d ∧
            d.1.fname ∉ (readM3uFile fs
              ⟨st.outputDir, cleanFilename g ++ ".m3u"⟩).map entryBasename) := by
  constructor
  · unfold scanOneM3u
    simp only [hfile]
    split
    · rw [scanFold_userCustomized, if_neg (by rw [hmark]; exact Bool.false_ne_true)]
      exact setInsert_mem_self _ _
    · rw [if_neg (by rw [hmark]; exact Bool.false_ne_true)]
      exact setInsert_mem_self _ _
  · unfold updatePlaylist
    cases hd : assocGet st.gameSeries g with
    | none => exact ⟨[], by rw [List.append_nil]; exact hfile, Or.inl rfl⟩
    | some discs =>
      dsimp only
      by_cases hlen : discs.length ≤ 1
      · rw [if_pos hlen]
        exact ⟨[], by rw [List.append_nil]; exact hfile, Or.inl rfl⟩
      · rw [if_neg hlen]
        have hsk := skipCheck_fields st fs g ⟨st.outputDir, cleanFilename g ++ ".m3u"⟩
        by_cases hskip :
            (skipCheck st fs g ⟨st.outputDir, cleanFilename g ++ ".m3u"⟩).1 = true
        · rw [if_pos hskip]
          exact ⟨[], by rw [List.append_nil]; exact hfile, Or.inl rfl⟩
        · rw [if_neg hskip]
          unfold writeDispatch
          rw [if_pos (by
            rw [hfile, hsk.2.2.1]
            simpa using hmem)]
          unfold markUpdated
          dsimp only
          have hGS : seriesOf
              (skipCheck st fs g ⟨st.outputDir, cleanFilename g ++ ".m3u"⟩).2 g =
              seriesOf st g := by
            unfold seriesOf
            rw [hsk.1]
          have hCE : ∀ d, custEntryLine
              (skipCheck st fs g ⟨st.outputDir, cleanFilename g ++ ".m3u"⟩).2 d =
              custEntryLine st d := by
            intro d
            unfold custEntryLine
            rw [hsk.2.1]
          obtain ⟨app, h1, h2⟩ := updateUserCustomizedPlaylist_spec fsOk now
            (skipCheck st fs g ⟨st.outputDir, cleanFilename g ++ ".m3u"⟩).2 fs g
            ⟨st.outputDir, cleanFilename g ++ ".m3u"⟩ L hfile
            (backupPathOf_ne_m3u st.outputDir (cleanFilename g))
          refine ⟨app, h1, ?_⟩
          rcases h2 with h2 | ⟨entries, he1, he2, he3⟩
          · exact Or.inl h2
          · refine Or.inr ⟨entries, he1, he2, ?_⟩
            intro e he
            obtain ⟨d, hd1, hd2, hd3⟩ := he3 e he
            rw [hGS] at hd1
            rw [hCE d] at hd2
            exact ⟨d, hd1, hd2, hd3⟩

/-- Witness for C3: `Foo` is classified customized, its playlist holds one
user entry, and both tracked discs are missing from it. -/
theorem claim3_witness :
    (st6c.userCustomized.contains (cleanFilename "Foo") = true ∧
     assocGet fs6c.files
       (⟨st6c.outputDir, cleanFilename "Foo" ++ ".m3u"⟩ : FsPath) =
         some ["My Stuff.chd"] ∧
     (["My Stuff.chd"] : FileLines).any (lineContains markerLine) = false) ∧
    ((pathStem (cleanFilename "Foo" ++ ".m3u") ∈
      (scanOneM3u st6c fs6c
        ⟨st6c.outputDir, cleanFilename "Foo" ++ ".m3u"⟩).userCustomized) ∧
    ∃ app,
      assocGet (updatePlaylist true "T" st6c fs6c "Foo").2.2.files
          ⟨st6c.outputDir, cleanFilename "Foo" ++ ".m3u"⟩ =
        some (["My Stuff.chd"] ++ app) ∧
      (app = [] ∨
        ∃ entries, app = custUpdateHeader "T" ++ entries ∧
          assocGet (updatePlaylist true "T" st6c fs6c "Foo").2.2.files
              (backupPathOf ⟨st6c.outputDir, cleanFilename "Foo" ++ ".m3u"⟩) =
            some ["My Stuff.chd"] ∧
          ∀ e ∈ entries, ∃ d, d ∈ seriesOf st6c "Foo" ∧
            e = custEntryLine st6c d ∧
            d.1.fname ∉ (readM3uFile fs6c
              ⟨st6c.outputDir, cleanFilename "Foo" ++ ".m3u"⟩).map entryBasename)) :=
  ⟨⟨by decide, by decide, by decide⟩,
   claim3_customized_playlist_preserved true "T" st6c fs6c "Foo" ["My Stuff.chd"]
     (by decide) (by decide) (by decide)⟩

/-! ### Claim C8: deduplication invariant and idempotence of add-disc -/

/-- No two tracked discs of one title share a path or an index. -/
def discsOk (l : List (FsPath × Nat)) : Prop :=
  l.Pairwise fun a b => a.1 ≠ b.1 ∧ a.2 ≠ b.2

/-- A sequence of `_add_to_game_series` calls. -/
def applyAdds : PMState → List (String × FsPath × Nat) → PMState
  | st, [] => st
  | st, (g, p, n) :: ops => applyAdds (addToGameSeries st g p n) ops

theorem addToGameSeries_gameSeries (st : PMState) (g : String) (p : FsPath)
    (n : Nat) :
    (addToGameSeries st g p n).gameSeries =
      if (seriesOf st g).any (fun e => e.1 == p || e.2 == n) then st.gameSeries
      else assocSet st.gameSeries g (sortByNum (seriesOf st g ++ [(p, n)])) := by
  unfold addToGameSeries
  dsimp only
  by_cases hc : ((seriesOf st g).any fun e => e.1 == p || e.2 == n) = true
  · simp only [if_pos hc]
  · simp only [if_neg hc]
    exact (updateSeriesSignature_fields _ _).1

theorem seriesOf_addToGameSeries (st : PMState) (g : String) (p : FsPath)
    (n : Nat) (g' : String) :
    seriesOf (addToGameSeries st g p n) g' =
      if (seriesOf st g).any (fun e => e.1 == p || e.2 == n) then seriesOf st g'
      else if g' = g then sortByNum (seriesOf st g ++ [(p, n)])
      else seriesOf st g' := by
  by_cases hc : ((seriesOf st g).any fun e => e.1 == p || e.2 == n) = true
  · rw [if_pos hc]
    unfold seriesOf
    rw [addToGameSeries_gameSeries, if_pos hc]
  · rw [if_neg hc]
    by_cases hg : g' = g
    · rw [if_pos hg]
      subst hg
      unfold seriesOf
      rw [addToGameSeries_gameSeries, if_neg hc, assocGet_set_same]
      rfl
    · rw [if_neg hg]
      unfold seriesOf
      rw [addToGameSeries_gameSeries, if_neg hc, assocGet_set_ne _ _ _ _ hg]

theorem discsOk_symm : Symmetric fun a b : FsPath × Nat => a.1 ≠ b.1 ∧ a.2 ≠ b.2 :=
  fun _ _ h => ⟨h.1.symm, h.2.symm⟩

theorem discsOk_addToGameSeries (st : PMState) (g : String) (p : FsPath) (n : Nat)
    (h : ∀ g', discsOk (seriesOf st g')) :
    ∀ g', discsOk (seriesOf (addToGameSeries st g p n) g') := by
  intro g'
  rw [seriesOf_addToGameSeries]
  split
  · exact h g'
  · next hany =>
    by_cases hg : g' = g
    · simp only [hg, if_true]
      have hnc : ∀ e ∈ seriesOf st g, e.1 ≠ p ∧ e.2 ≠ n := by
        intro e he
        have := List.any_eq_true.not.mp hany
        push_neg at this
        have h2 := this e he
        constructor
        · intro hp
          exact h2 (by simp [hp])
        · intro hn
          exact h2 (by simp [hn])
      have happ : discsOk (seriesOf st g ++ [(p, n)]) := by
        refine List.pairwise_append.mpr ⟨h g, by simp [discsOk], ?_⟩
        intro a ha b hb
        rcases List.mem_singleton.mp hb with rfl
        exact hnc a ha
      exact ((sortByNum_perm _).pairwise_iff (fun h12 => discsOk_symm h12)).mpr happ
    · simp only [hg, if_false]
      exact h g'

theorem discsOk_applyAdds (ops : List (String × FsPath × Nat)) :
    ∀ st : PMState, (∀ g, discsOk (seriesOf st g)) →
      ∀ g, discsOk (seriesOf (applyAdds st ops) g) := by
  induction ops with
  | nil => exact fun st h => h
  | cons op ops ih =>
    intro st h
    exact ih (addToGameSeries st op.1 op.2.1 op.2.2)
      (discsOk_addToGameSeries st op.1 op.2.1 op.2.2 h)

theorem addToGameSeries_dup (st : PMState) (g : String) (p : FsPath) (n : Nat)
    (h : (seriesOf st g).any (fun e => e.1 == p || e.2 == n) = true) :
    addToGameSeries st g p n = st := by
  unfold addToGameSeries
  simp [h]

/-- Claim C8: starting from the empty store, any sequence of add-disc
operations maintains the invariant that no title's disc list repeats a path
or a disc index; adding a disc whose path or index is already present is a
no-op leaving the whole state (disc lists and stored signatures included)
unchanged; and adding the same `(title, path, index)` twice equals adding it
once. -/
theorem claim8_store_invariant_and_idempotence :
    (∀ (outDir : List String) (ops : List (String × FsPath × Nat)) (g : String),
        discsOk (seriesOf (applyAdds (emptyPM outDir) ops) g)) ∧
    (∀ (st : PMState) (g : String) (p : FsPath) (n : Nat),
        (seriesOf st g).any (fun e => e.1 == p || e.2 == n) = true →
        addToGameSeries st g p n = st) ∧
    (∀ (st : PMState) (g : String) (p : FsPath) (n : Nat),
        addToGameSeries (addToGameSeries st g p n) g p n =
          addToGameSeries st g p n) := by
  refine ⟨?_, addToGameSeries_dup, ?_⟩
  · intro outDir ops g
    refine discsOk_applyAdds ops (emptyPM outDir) ?_ g
    intro g'
    simp [discsOk, seriesOf, emptyPM, assocGet]
  · intro st g p n
    by_cases hc : (seriesOf st g).any (fun e => e.1 == p || e.2 == n) = true
    · rw [addToGameSeries_dup st g p n hc]
      exact addToGameSeries_dup st g p n hc
    · have hmem : (p, n) ∈ seriesOf (addToGameSeries st g p n) g := by
        rw [seriesOf_addToGameSeries]
        simp only [hc, if_false, if_pos rfl]
        exact (sortByNum_perm _).mem_iff.mpr (by simp)
      exact addToGameSeries_dup _ g p n
        (List.any_eq_true.mpr ⟨(p, n), hmem, by simp⟩)

/-- Witness for C8: in a store already tracking `G` disc 1, re-adding the
same path is detected as a duplicate and changes nothing. -/
theorem claim8_witness :
    ((seriesOf (applyAdds (emptyPM outDir0) [("G", fooChd 1, 1)]) "G").any
        (fun e => e.1 == fooChd 1 || e.2 == 1) = true) ∧
    addToGameSeries (applyAdds (emptyPM outDir0) [("G", fooChd 1, 1)]) "G"
        (fooChd 1) 1 =
      applyAdds (emptyPM outDir0) [("G", fooChd 1, 1)] :=
  ⟨by decide,
   claim8_store_invariant_and_idempotence.2.1
     (applyAdds (emptyPM outDir0) [("G", fooChd 1, 1)]) "G" (fooChd 1) 1
     (by decide)⟩

/-! ### Claim C10: registration refuses absent and zero disc numbers -/

/-- Claim C10: `register_disc` returns `None` and leaves the store, the
signatures, and the filesystem (state file and playlists) untouched whenever
the parsed disc number is absent or `0` (`if not disc_num:` is Python
falsiness), for any related-disc matcher, error injection, auto-update flag,
state and filesystem. -/
theorem claim10_zero_or_no_disc_is_noop (relM : String → String → Option Nat)
    (fsOk : Bool) (now : String) (upd : Bool) (st : PMState) (fs : Fs)
    (p : FsPath)
    (h : (extractBaseNameAndDisc (pathStem p.fname)).2 = none ∨
         (extractBaseNameAndDisc (pathStem p.fname)).2 = some 0) :
    registerDisc relM fsOk now upd st fs p = (none, st, fs) := by
  unfold registerDisc
  rcases h with h | h <;> simp [h]

/-- Witness for C10 at the bare-trailing-number file `Game - 0.chd`: the
pattern matches and yields disc number `0`, and registration is a no-op. -/
theorem claim10_witness :
    (extractBaseNameAndDisc (pathStem (FsPath.mk outDir0 "Game - 0.chd").fname)).2
      = some 0 ∧
    registerDisc relNone true "T" true (emptyPM outDir0) ⟨[]⟩
      ⟨outDir0, "Game - 0.chd"⟩ = (none, emptyPM outDir0, ⟨[]⟩) :=
  ⟨by decide,
   claim10_zero_or_no_disc_is_noop relNone true "T" true (emptyPM outDir0) ⟨[]⟩
     ⟨outDir0, "Game - 0.chd"⟩ (Or.inr (by decide))⟩

/-! ### Claim C9: the incomplete-series sweep -/

/-- The claim's sweep condition on one title's disc list: at least
`minDiscs` discs, maximum index within `expectedMax`, no orphaned gap. -/
def sweepCond (minDiscs expectedMax : Nat) (discs : List (FsPath × Nat)) : Bool :=
  let nums := sortNats (discs.map (·.2))
  minDiscs ≤ discs.length && maxNat nums ≤ expectedMax && noOrphanGapB nums

def barChd (n : Nat) : FsPath := ⟨outDir0, "Bar (Disc " ++ toString n ++ ").chd"⟩

def stBar : PMState :=
  addToGameSeries (addToGameSeries (emptyPM outDir0) "Bar" (barChd 1) 1)
    "Bar" (barChd 2) 2

def fsBar : Fs := ⟨[(barChd 1, []), (barChd 2, [])]⟩

def barM3u : FsPath := ⟨outDir0, "Bar.m3u"⟩

def barContent : List String :=
  ["# Bar - Multi-disc game playlist", "# Created by 7z-to-CHD Converter",
   "# Last updated: T", "# Total discs: 2 (1, 2)", "#",
   "Bar (Disc 1).chd # Disc 1", "Bar (Disc 2).chd # Disc 2"]

/-- Claim C9 (counterexample): the sweep over `Bar` with discs `{1, 2}` does
create `Bar.m3u` listing both discs — but the header carries *no* comment
noting the absence of a gap: no header line mentions gaps or missing discs
at all (the `# Missing discs:` note is only written when discs are missing),
refuting the claimed "header comment noting no gap below the max observed
index". -/
theorem claim9_counterexample :
    (checkForIncompleteSeries relNone true "T" 2 6 stBar fsBar).1 =
      [("Bar", barM3u)] ∧
    assocGet (checkForIncompleteSeries relNone true "T" 2 6 stBar fsBar).2.2.files
      barM3u = some barContent ∧
    (barContent.filter fun l => strStartsWith l "#").all
      (fun l => !(lineContains "gap" l) && !(lineContains "Gap" l) &&
        !(lineContains "missing" l) && !(lineContains "Missing" l)) = true := by
  decide

theorem relStep_none (relM : String → String → Option Nat)
    (hrel : ∀ a b, relM a b = none) (g : String) (s : PMState) (p : FsPath) :
    relStep relM g s p = s := by
  unfold relStep
  rw [hrel]

theorem findRelatedDiscs_none (relM : String → String → Option Nat)
    (hrel : ∀ a b, relM a b = none) (st : PMState) (fs : Fs) (g : String) :
    findRelatedDiscs relM st fs g = st := by
  unfold findRelatedDiscs
  generalize chdFilesIn fs st.outputDir = l
  induction l generalizing st with
  | nil => rfl
  | cons p ps ih =>
    rw [List.foldl_cons, relStep_none relM hrel]
    exact ih st

theorem updateUserCustomizedPlaylist_fst (fsOk : Bool) (now : String)
    (st : PMState) (fs : Fs) (g : String) (m3u : FsPath) :
    (updateUserCustomizedPlaylist fsOk now st fs g m3u).1 = m3u := by
  unfold updateUserCustomizedPlaylist
  dsimp only
  split
  · rfl
  · split
    · rfl
    · split <;> rfl

/-- With no filesystem error and at least two tracked discs,
`update_playlist` always reports the playlist path (every branch — the
skip path, the customized append and the managed rewrite — returns it). -/
theorem updatePlaylist_fst_some (now : String) (st : PMState) (fs : Fs)
    (g : String) (discs : List (FsPath × Nat))
    (hd : assocGet st.gameSeries g = some discs) (hlen : ¬discs.length ≤ 1) :
    (updatePlaylist true now st fs g).1 =
      some ⟨st.outputDir, cleanFilename g ++ ".m3u"⟩ := by
  unfold updatePlaylist
  rw [hd]
  dsimp only
  rw [if_neg hlen]
  by_cases hskip :
      (skipCheck st fs g ⟨st.outputDir, cleanFilename g ++ ".m3u"⟩).1 = true
  · rw [if_pos hskip]
  · rw [if_neg hskip,
      (markUpdated_fields g _).1]
    unfold writeDispatch
    split
    · dsimp only
      rw [updateUserCustomizedPlaylist_fst]
    · rfl

/-! #### Ordering and min/max helper lemmas for the sweep -/

theorem insertPair_perm (x : Nat × String) (l : List (Nat × String)) :
    (insertPair x l).Perm (x :: l) := by
  induction l with
  | nil => simp [insertPair]
  | cons y ys ih =>
    by_cases h : pairLe x y
    · simp [insertPair, h]
    · simp only [insertPair, h, if_false]
      exact (ih.cons y).trans (List.Perm.swap x y ys)

theorem sortPairs_perm (l : List (Nat × String)) : (sortPairs l).Perm l := by
  induction l with
  | nil => simp [sortPairs]
  | cons x xs ih => exact (insertPair_perm x (sortPairs xs)).trans (ih.cons x)

theorem sortNats_perm (l : List Nat) : (sortNats l).Perm l := by
  unfold sortNats
  refine ((sortPairs_perm (l.map fun n => (n, ""))).map (·.1)).trans ?_
  rw [List.map_map,
    show ((·.1) ∘ fun n : Nat => (n, "")) = (id : Nat → Nat) from rfl,
    List.map_id]

theorem le_maxNat (l : List Nat) (x : Nat) (hx : x ∈ l) : x ≤ maxNat l := by
  induction l with
  | nil => cases hx
  | cons a as ih =>
    rcases List.mem_cons.mp hx with rfl | hx
    · exact le_max_left _ _
    · exact le_trans (ih hx) (le_max_right _ _)

theorem foldl_min_le (xs : List Nat) :
    ∀ a, xs.foldl min a ≤ a ∧ ∀ x ∈ xs, xs.foldl min a ≤ x := by
  induction xs with
  | nil => exact fun a => ⟨le_refl a, fun x hx => absurd hx (List.not_mem_nil x)⟩
  | cons b bs ih =>
    intro a
    have h := ih (min a b)
    refine ⟨le_trans h.1 (min_le_left a b), ?_⟩
    intro x hx
    rcases List.mem_cons.mp hx with rfl | hx
    · exact le_trans h.1 (min_le_right a x)
    · exact h.2 x hx

theorem minNat_le (l : List Nat) (x : Nat) (hx : x ∈ l) : minNat l ≤ x := by
  cases l with
  | nil => cases hx
  | cons a as =>
    rcases List.mem_cons.mp hx with rfl | hx
    · exact (foldl_min_le as x).1
    · exact (foldl_min_le as a).2 x hx

theorem foldl_min_mem (xs : List Nat) :
    ∀ a, xs.foldl min a = a ∨ xs.foldl min a ∈ xs := by
  induction xs with
  | nil => exact fun a => Or.inl rfl
  | cons b bs ih =>
    intro a
    rcases ih (min a b) with h | h
    · rcases min_choice a b with hm | hm
      · exact Or.inl (h.trans hm)
      · exact Or.inr (by
          rw [List.foldl_cons, h, hm]
          exact List.mem_cons_self b bs)
    · exact Or.inr (List.mem_cons_of_mem b h)

theorem minNat_mem (l : List Nat) (h : l ≠ []) : minNat l ∈ l := by
  cases l with
  | nil => exact absurd rfl h
  | cons a as =>
    rcases foldl_min_mem as a with h1 | h1
    · rw [show minNat (a :: as) = as.foldl min a from rfl, h1]
      exact List.mem_cons_self a as
    · exact List.mem_cons_of_mem a h1

/-- The redundancy of the code's `1 in disc_nums or min(disc_nums) < 3`
check: it is implied by `has_consecutive` — a series starting at 3 or above
always has the orphaned gap `(min - 1, min)`. -/
theorem noGap_low (nums : List Nat) (hne : nums ≠ [])
    (hgap : noOrphanGapB nums = true) :
    (nums.contains 1 || decide (minNat nums < 3)) = true := by
  by_cases h3 : minNat nums < 3
  · simp [h3]
  · exfalso
    push_neg at h3
    have hm := minNat_mem nums hne
    have hmax := le_maxNat nums _ hm
    have hi : minNat nums - 1 ∈ List.range' 1 (maxNat nums - 1) := by
      rw [List.mem_range'_1]
      omega
    have hall := List.all_eq_true.mp hgap _ hi
    have hnotin : ¬(minNat nums - 1) ∈ nums := by
      intro hmem
      have := minNat_le nums _ hmem
      omega
    have hin : minNat nums - 1 + 1 ∈ nums := by
      rw [show minNat nums - 1 + 1 = minNat nums from by omega]
      exact hm
    rw [show nums.contains (minNat nums - 1) = false from by simpa using hnotin,
      show nums.contains (minNat nums - 1 + 1) = true from by simpa using hin]
      at hall
    simp at hall

/-- One sweep iteration creates exactly the playlists the claim's condition
selects, and leaves the series store and output directory unchanged. -/
theorem sweepStep_spec (relM : String → String → Option Nat)
    (hrel : ∀ a b, relM a b = none) (now : String) (minD maxE : Nat)
    (hmin : 2 ≤ minD) (g : String) (cr : List (String × FsPath)) (s : PMState)
    (f : Fs) :
    ∃ s' f', sweepStep relM true now minD maxE g (cr, s, f) =
      ((if sweepCond minD maxE (seriesOf s g) then
          cr ++ [(g, (⟨s.outputDir, cleanFilename g ++ ".m3u"⟩ : FsPath))]
        else cr), s', f') ∧
      s'.gameSeries = s.gameSeries ∧ s'.outputDir = s.outputDir := by
  unfold sweepStep
  dsimp only
  have hs1 : (if (seriesOf s g).length == minD
      then findRelatedDiscs relM s f g else s) = s := by
    split
    · exact findRelatedDiscs_none relM hrel s f g
    · rfl
  rw [hs1]
  by_cases hlen : minD ≤ (seriesOf s g).length
  · rw [if_pos hlen]
    have hne : sortNats (List.map (·.2) (seriesOf s g)) ≠ [] := by
      have h1 : (sortNats (List.map (·.2) (seriesOf s g))).length =
          (seriesOf s g).length := by
        rw [(sortNats_perm _).length_eq, List.length_map]
      intro h
      rw [h] at h1
      simp at h1
      omega
    by_cases hmax : maxNat (sortNats (List.map (·.2) (seriesOf s g))) ≤ maxE
    · rw [if_pos hmax]
      by_cases hlow : ((sortNats (List.map (·.2) (seriesOf s g))).contains 1 ||
          decide (minNat (sortNats (List.map (·.2) (seriesOf s g))) < 3)) = true
      · rw [if_pos hlow]
        by_cases hcons :
            noOrphanGapB (sortNats (List.map (·.2) (seriesOf s g))) = true
        · rw [if_pos hcons]
          obtain ⟨discs, hd⟩ : ∃ d, assocGet s.gameSeries g = some d := by
            cases hget : assocGet s.gameSeries g with
            | none =>
              exfalso
              have : seriesOf s g = [] := by
                unfold seriesOf
                rw [hget]
                rfl
              rw [this] at hlen
              simp at hlen
              omega
            | some d => exact ⟨d, rfl⟩
          have hdisc : seriesOf s g = discs := by
            unfold seriesOf
            rw [hd]
            rfl
          have hlen2 : ¬discs.length ≤ 1 := by
            rw [← hdisc]
            omega
          rw [updatePlaylist_fst_some now s f g discs hd hlen2]
          dsimp only
          refine ⟨(updatePlaylist true now s f g).2.1,
            (updatePlaylist true now s f g).2.2, ?_,
            (updatePlaylist_fields true now s f g).1,
            (updatePlaylist_fields true now s f g).2⟩
          rw [if_pos (show sweepCond minD maxE (seriesOf s g) = true from by
            simp [sweepCond, hlen, hmax, hcons])]
        · rw [if_neg hcons]
          refine ⟨s, f, ?_, rfl, rfl⟩
          rw [if_neg (show ¬sweepCond minD maxE (seriesOf s g) = true from by
            simp [sweepCond, hcons])]
      · rw [if_neg hlow]
        refine ⟨s, f, ?_, rfl, rfl⟩
        have hcons : ¬noOrphanGapB (sortNats (List.map (·.2) (seriesOf s g))) = true := by
          intro hc
          exact hlow (noGap_low _ hne hc)
        rw [if_neg (show ¬sweepCond minD maxE (seriesOf s g) = true from by
          simp [sweepCond, hcons])]
    · rw [if_neg hmax]
      refine ⟨s, f, ?_, rfl, rfl⟩
      rw [if_neg (show ¬sweepCond minD maxE (seriesOf s g) = true from by
        simp [sweepCond, hmax])]
  · rw [if_neg hlen]
    refine ⟨s, f, ?_, rfl, rfl⟩
    rw [if_neg (show ¬sweepCond minD maxE (seriesOf s g) = true from by
      simp [sweepCond, hlen])]

theorem sweepLoop_spec (relM : String → String → Option Nat)
    (hrel : ∀ a b, relM a b = none) (now : String) (minD maxE : Nat)
    (hmin : 2 ≤ minD) (G : List (String × List (FsPath × Nat)))
    (oD : List String) :
    ∀ (keys : List String) (cr : List (String × FsPath)) (s : PMState) (f : Fs),
      s.gameSeries = G → s.outputDir = oD →
      (sweepLoop relM true now minD maxE keys (cr, s, f)).1 =
        cr ++ (keys.filter fun g =>
          sweepCond minD maxE ((assocGet G g).getD [])).map
          fun g => (g, (⟨oD, cleanFilename g ++ ".m3u"⟩ : FsPath)) := by
  intro keys
  induction keys with
  | nil =>
    intro cr s f h1 h2
    simp [sweepLoop]
  | cons g gs ih =>
    intro cr s f h1 h2
    obtain ⟨s', f', heq, hGS, hOD⟩ :=
      sweepStep_spec relM hrel now minD maxE hmin g cr s f
    rw [show sweepLoop relM true now minD maxE (g :: gs) (cr, s, f) =
        sweepLoop relM true now minD maxE gs
          (sweepStep relM true now minD maxE g (cr, s, f)) from rfl, heq]
    have hser : seriesOf s g = (assocGet G g).getD [] := by
      unfold seriesOf
      rw [h1]
    rw [hser, h2]
    by_cases hc : sweepCond minD maxE ((assocGet G g).getD []) = true
    · rw [if_pos hc, ih _ s' f' (hGS.trans h1) (hOD.trans h2),
        @List.filter_cons_of_pos String
          (fun g => sweepCond minD maxE ((assocGet G g).getD [])) g gs hc,
        List.map_cons, List.append_assoc, List.singleton_append]
    · rw [if_neg hc, ih cr s' f' (hGS.trans h1) (hOD.trans h2),
        @List.filter_cons_of_neg String
          (fun g => sweepCond minD maxE ((assocGet G g).getD [])) g gs hc]

/-- Claim C9 (amended): with `min_discs ≥ 2`, no filesystem errors and a
directory rescan that matches nothing new, the incomplete-series sweep
returns a playlist for *exactly* those tracked titles with at least
`min_discs` discs, maximum index at most `max_expected_discs`, and no
orphaned gap — the code's extra `1 in nums or min(nums) < 3` test being
implied by the no-orphaned-gap condition (`noGap_low`).  The Bar `{1, 2}`
scenario produces `Bar.m3u` with both discs, but with no header comment
about gaps (see the counterexample theorem): the header only ever notes
*missing* discs, and only when there are any. -/
theorem claim9_sweep_exact (relM : String → String → Option Nat)
    (hrel : ∀ a b, relM a b = none) (now : String) (minD maxE : Nat)
    (hmin : 2 ≤ minD) (st : PMState) (fs : Fs) :
    (checkForIncompleteSeries relM true now minD maxE st fs).1 =
      ((st.gameSeries.map (·.1)).filter fun g =>
        sweepCond minD maxE (seriesOf st g)).map
        fun g => (g, (⟨st.outputDir, cleanFilename g ++ ".m3u"⟩ : FsPath)) := by
  unfold checkForIncompleteSeries
  dsimp only
  rw [sweepLoop_spec relM hrel now minD maxE hmin st.gameSeries st.outputDir
    (st.gameSeries.map (·.1)) [] st fs rfl rfl]
  rw [List.nil_append]
  rfl

/-- Witness for the amended C9 at the Bar scenario. -/
theorem claim9_witness :
    ((∀ a b, relNone a b = none) ∧ 2 ≤ 2) ∧
    (checkForIncompleteSeries relNone true "T" 2 6 stBar fsBar).1 =
      ((stBar.gameSeries.map (·.1)).filter fun g =>
        sweepCond 2 6 (seriesOf stBar g)).map
        fun g => (g, (⟨stBar.outputDir, cleanFilename g ++ ".m3u"⟩ : FsPath)) :=
  ⟨⟨fun _ _ => rfl, by decide⟩,
   claim9_sweep_exact relNone (fun _ _ => rfl) "T" 2 6 (by decide) stBar fsBar⟩

end SevenZ
